import Mathlib

/-!
Verification of the terminal "digital rain" animation (src/expt/cmatrix.cpp).

The simulation state of class Matrix is embedded shallowly: the cell grids
(screen, brightness) and the per-column arrays (drops, speeds, lengths,
counters) become total functions updated pointwise, the std::mt19937 random
source together with the uniform_int_distribution draws becomes an abstract
stream of naturals from which each draw consumes one element and maps it into
the requested closed range, and the per-frame update() becomes the function
tick below.
-/

/-- The random source: an infinite stream of naturals and a read position.
Models the std::mt19937 engine abstractly; each distribution draw consumes one
element of the stream. -/
structure Rng where
  stream : Nat → Nat
  pos : Nat

/-- One draw of a uniform_int_distribution over the closed range [lo, hi]:
consumes one stream element and maps it into the range. -/
def draw (lo hi : Nat) (r : Rng) : Nat × Rng :=
  (lo + r.stream r.pos % (hi + 1 - lo), { r with pos := r.pos + 1 })

/-- UTF-8 encoding of a character as a list of byte values. std::string stores
bytes, and matrix_chars[i] in the source reads the i-th byte. -/
def utf8Bytes (c : Char) : List Nat :=
  let n := c.toNat
  if n < 128 then [n]
  else if n < 2048 then [192 + n / 64, 128 + n % 64]
  else if n < 65536 then [224 + n / 4096, 128 + (n / 64) % 64, 128 + n % 64]
  else [240 + n / 262144, 128 + (n / 4096) % 64, 128 + (n / 64) % 64, 128 + n % 64]

/-- The symbol string matrix_chars of the source (mix of katakana, digits and
punctuation). -/
def matrixChars : String :=
  "アイウエオカキクケコサシスセソタチツテトナニヌネノハヒフヘホマミムメモヤユヨラリルレロワヲン0123456789!@#$%^&*()"

/-- The bytes of matrix_chars: std::string holds the UTF-8 encoding, and
operator[] with char_dist indexes these bytes (each katakana contributes three
bytes). -/
def matrixCharsBytes : List Nat := matrixChars.data.flatMap utf8Bytes

/-- The simulation state of class Matrix. Grids and per-column arrays are
total functions; cells outside the width x height window are never touched by
the dynamics. A glyph is a byte value, 32 being the blank space. -/
structure MState where
  width : Nat
  height : Nat
  screen : Nat → Nat → Nat
  brightness : Nat → Nat → Int
  drops : Nat → Int
  speeds : Nat → Int
  lengths : Nat → Int
  counters : Nat → Int
  rng : Rng

/-- Pointwise update of a one-dimensional array modelled as a function. -/
def updF {α : Type} (f : Nat → α) (i : Nat) (v : α) : Nat → α :=
  fun j => if j = i then v else f j

/-- Pointwise update of a two-dimensional array modelled as a function. -/
def upd2 {α : Type} (f : Nat → Nat → α) (r c : Nat) (v : α) : Nat → Nat → α :=
  fun r1 c1 => if r1 = r ∧ c1 = c then v else f r1 c1

/-- The body of the fade loop on one cell: brightness above zero drops by 3,
and on reaching (or crossing) zero the brightness is pinned to 0 and the glyph
cleared to blank. -/
def fadeCell (g : Nat) (b : Int) : Nat × Int :=
  if 0 < b then
    if b - 3 ≤ 0 then (32, 0) else (g, b - 3)
  else (g, b)

/-- The fade pass of Matrix::update: fadeCell applied to every cell of the
height x width window. -/
def fadePass (st : MState) : MState :=
  { st with
    screen := fun r c =>
      if r < st.height ∧ c < st.width then (fadeCell (st.screen r c) (st.brightness r c)).1
      else st.screen r c,
    brightness := fun r c =>
      if r < st.height ∧ c < st.width then (fadeCell (st.screen r c) (st.brightness r c)).2
      else st.brightness r c }

/-- Drawing the head of a drop: when the new head row d is inside [0, height),
the cell (d, col) receives a fresh random byte of matrix_chars and
brightness 10. -/
def headWrite (col : Nat) (d : Int) (st : MState) : MState :=
  if 0 ≤ d ∧ d < (st.height : Int) then
    { st with
      screen := upd2 st.screen d.toNat col
        (matrixCharsBytes.getD (draw 0 (matrixCharsBytes.length - 1) st.rng).1 0),
      brightness := upd2 st.brightness d.toNat col 10,
      rng := (draw 0 (matrixCharsBytes.length - 1) st.rng).2 }
  else st

/-- One iteration of the tail loop at offset i: the cell at row d - i, when
inside the window and dimmer than 10 - i, receives a fresh random byte and
brightness max 1 (10 - i). -/
def tailStep (col : Nat) (d : Int) (st : MState) (i : Nat) : MState :=
  if 0 ≤ d - (i : Int) ∧ d - (i : Int) < (st.height : Int) then
    if st.brightness (d - (i : Int)).toNat col < 10 - (i : Int) then
      { st with
        screen := upd2 st.screen (d - (i : Int)).toNat col
          (matrixCharsBytes.getD (draw 0 (matrixCharsBytes.length - 1) st.rng).1 0),
        brightness := upd2 st.brightness (d - (i : Int)).toNat col (max 1 (10 - (i : Int))),
        rng := (draw 0 (matrixCharsBytes.length - 1) st.rng).2 }
    else st
  else st

/-- The index sequence of the tail loop: i = 1 while i < lengths[col]. -/
def tailIdxs (len : Int) : List Nat := (List.range len.toNat).drop 1

/-- The tail loop of Matrix::update for one column. -/
def tailWrites (col : Nat) (d len : Int) (st : MState) : MState :=
  (tailIdxs len).foldl (tailStep col d) st

/-- The respawn check of Matrix::update: once drops[col] - lengths[col]
exceeds height, the column is reset, drawing (in order) a spawn delay for the
new drops value -spawn - lengths[col] (the current trail length), then a new
speed, then a new trail length. -/
def resetCheck (col : Nat) (st : MState) : MState :=
  if (st.height : Int) < st.drops col - st.lengths col then
    { st with
      drops := updF st.drops col (-(((draw 0 50 st.rng).1 : Int)) - st.lengths col),
      speeds := updF st.speeds col (((draw 1 4 (draw 0 50 st.rng).2).1 : Int)),
      lengths := updF st.lengths col (((draw 7 10 (draw 1 4 (draw 0 50 st.rng).2).2).1 : Int)),
      rng := (draw 7 10 (draw 1 4 (draw 0 50 st.rng).2).2).2 }
  else st

/-- The per-column body of Matrix::update: increment the tick counter; when it
reaches the speed threshold, reset it, advance the head, draw head and tail,
and run the respawn check. -/
def updateColumn (col : Nat) (st : MState) : MState :=
  if st.speeds col ≤ st.counters col + 1 then
    resetCheck col (tailWrites col (st.drops col + 1) (st.lengths col)
      (headWrite col (st.drops col + 1)
        { st with counters := updF st.counters col 0,
                  drops := updF st.drops col (st.drops col + 1) }))
  else
    { st with counters := updF st.counters col (st.counters col + 1) }

/-- The column loop of Matrix::update. -/
def columnsPass (st : MState) : MState :=
  (List.range st.width).foldl (fun s c => updateColumn c s) st

/-- One call of Matrix::update: the fade pass followed by the column loop. -/
def tick (st : MState) : MState := columnsPass (fadePass st)

/-- The per-column body of Matrix::initializeMatrix: drops[i] is set from a
fresh spawn delay and a fresh trail-length draw, then speed and the stored
trail length are drawn. -/
def initColumn (i : Nat) (st : MState) : MState :=
  { st with
    drops := updF st.drops i
      (-(((draw 0 50 st.rng).1 : Int)) - (((draw 7 10 (draw 0 50 st.rng).2).1 : Int))),
    speeds := updF st.speeds i
      (((draw 1 4 (draw 7 10 (draw 0 50 st.rng).2).2).1 : Int)),
    lengths := updF st.lengths i
      (((draw 7 10 (draw 1 4 (draw 7 10 (draw 0 50 st.rng).2).2).2).1 : Int)),
    counters := updF st.counters i 0,
    rng := (draw 7 10 (draw 1 4 (draw 7 10 (draw 0 50 st.rng).2).2).2).2 }

/-- Matrix::initializeMatrix: a blank grid (all glyphs the space byte 32, all
brightness 0) and the per-column initialization loop. -/
def initializeMatrix (w h : Nat) (r : Rng) : MState :=
  (List.range w).foldl (fun s i => initColumn i s)
    { width := w, height := h,
      screen := fun _ _ => 32, brightness := fun _ _ => 0,
      drops := fun _ => 0, speeds := fun _ => 0,
      lengths := fun _ => 0, counters := fun _ => 0,
      rng := r }

/-- The state after initializing with the given dimensions and random source
and running Matrix::update n times. -/
def run (w h : Nat) (r : Rng) (n : Nat) : MState :=
  tick^[n] (initializeMatrix w h r)

/-- A state reachable from some initialization by some number of ticks. -/
def Reachable (st : MState) : Prop :=
  ∃ w h r n, st = run w h r n

/-- The advance decision of Matrix::update for one column: after the counter
increment, counters[col] >= speeds[col]. -/
@[reducible] def advancesNow (st : MState) (col : Nat) : Prop :=
  st.speeds col ≤ st.counters col + 1

/-- One token of the rendered terminal output of Matrix::render: a
color-setting escape (bright when the brightness level exceeds 5, else dim), a
glyph byte, the color reset, a blank, or the newline row separator. -/
inductive Out where
  | setColor : Bool → Out
  | glyph : Nat → Out
  | reset : Out
  | space : Out
  | newline : Out
deriving DecidableEq

/-- The output of Matrix::render for one cell: a colored glyph for a non-blank
cell of positive brightness, a single blank otherwise. -/
def cellOut (g : Nat) (b : Int) : List Out :=
  if g ≠ 32 ∧ 0 < b then [Out.setColor (5 < b), Out.glyph g, Out.reset] else [Out.space]

/-- The output of Matrix::render for one row. -/
def rowOut (st : MState) (r : Nat) : List Out :=
  (List.range st.width).flatMap (fun c => cellOut (st.screen r c) (st.brightness r c))

/-- The output of Matrix::render: rows top to bottom, a newline after every
row other than the last. -/
def render (st : MState) : List Out :=
  (List.range st.height).flatMap
    (fun r => rowOut st r ++ if r < st.height - 1 then [Out.newline] else [])

/-- Modelled from the spec: the frame, called for by the spec, that painting a
fully blank grid emits — rows of space characters with a row separator
between consecutive rows and none after the last row. -/
def blankFrame : Nat → Nat → List Out
  | 0, _ => []
  | 1, w => List.replicate w Out.space
  | n + 2, w => List.replicate w Out.space ++ Out.newline :: blankFrame (n + 1) w

/-- n repetitions of a full blank row followed by its separator. -/
def sepRowsN : Nat → Nat → List Out
  | 0, _ => []
  | n + 1, w => (List.replicate w Out.space ++ [Out.newline]) ++ sepRowsN n w

/-- Modelled from the spec: the respawn headRow formula the spec states —
both the spawn delay and the trail length are fresh uniform draws consumed
from the random source at respawn time. -/
def respawnHeadRowSpec (r : Rng) : Int :=
  -(((draw 0 50 r).1 : Int)) - (((draw 7 10 (draw 0 50 r).2).1 : Int))

/-- The environment main runs in: whether the terminal-size query (the ioctl
call) succeeds, the dimensions it reports, how many frames elapse before a key
is pressed, and the seed-derived random stream. -/
structure TermEnv where
  querySucceeds : Bool
  cols : Nat
  rows : Nat
  framesUntilKeypress : Nat
  seedStream : Nat → Nat

/-- Matrix::getTerminalSize: the return value of the ioctl / console query is
not inspected, so the reported dimensions are used whether or not the query
succeeded, and no error is raised. -/
def getTerminalSizeModel (e : TermEnv) : Nat × Nat := (e.cols, e.rows)

/-- The body of main inside its try block: construct the Matrix (terminal-size
query plus initialization) and run the animation loop until the keypress.
None of these operations throws, also when the terminal query fails. -/
def mainBody (e : TermEnv) : Except String Unit :=
  let dims := getTerminalSizeModel e
  let _ := run dims.1 dims.2 { stream := e.seedStream, pos := 0 } e.framesUntilKeypress
  Except.ok ()

/-- main: exit code 0 when the try block completes, 1 when it throws (with a
diagnostic on the error stream). -/
def mainExit (e : TermEnv) : Nat :=
  match mainBody e with
  | Except.ok _ => 0
  | Except.error _ => 1

/-- An environment whose terminal-size query fails (stdout is not a tty). -/
def envNoTty : TermEnv :=
  { querySucceeds := false, cols := 0, rows := 0, framesUntilKeypress := 0,
    seedStream := fun _ => 0 }

/-- The per-column data of one column together with the grid dimensions. -/
def colData (st : MState) (col : Nat) : Int × Int × Int × Int × Nat × Nat :=
  (st.counters col, st.speeds col, st.drops col, st.lengths col, st.height, st.width)

/-- A one-column state about to advance its head out of range, used to settle
the respawn-formula claim concretely. -/
def stR : MState :=
  { width := 1, height := 5,
    screen := fun _ _ => 32, brightness := fun _ _ => 0,
    drops := fun _ => 13, speeds := fun _ => 1,
    lengths := fun _ => 7, counters := fun _ => 0,
    rng := { stream := fun _ => 1, pos := 0 } }

/-- A one-column state whose head advances into the visible window, used to
settle the head-glyph claim concretely. -/
def stH : MState :=
  { width := 1, height := 5,
    screen := fun _ _ => 32, brightness := fun _ _ => 0,
    drops := fun _ => 1, speeds := fun _ => 1,
    lengths := fun _ => 7, counters := fun _ => 0,
    rng := { stream := fun _ => 0, pos := 0 } }

/-- A small generic state used to instantiate hypotheses of the per-column
theorems. -/
def stW : MState :=
  { width := 1, height := 5,
    screen := fun _ _ => 32, brightness := fun _ _ => 0,
    drops := fun _ => 2, speeds := fun _ => 2,
    lengths := fun _ => 8, counters := fun _ => 0,
    rng := { stream := fun _ => 0, pos := 0 } }

/-- A state at the respawn boundary headRow = height + trailLength + 1 of the
respawn scenario: drops = height + trailLength before the advancing tick. -/
def stB : MState :=
  { width := 1, height := 5,
    screen := fun _ _ => 32, brightness := fun _ _ => 0,
    drops := fun _ => 12, speeds := fun _ => 1,
    lengths := fun _ => 7, counters := fun _ => 0,
    rng := { stream := fun _ => 3, pos := 0 } }

/-- A fully blank two-by-three state for the renderer claim. -/
def stBlank : MState :=
  { width := 3, height := 2,
    screen := fun _ _ => 32, brightness := fun _ _ => 0,
    drops := fun _ => 0, speeds := fun _ => 1,
    lengths := fun _ => 7, counters := fun _ => 0,
    rng := { stream := fun _ => 0, pos := 0 } }

/-- The rng with the all-zero stream. -/
def rng0 : Rng := { stream := fun _ => 0, pos := 0 }

/-- The cell invariant: brightness within [0, 10], the glyph blank exactly
when the brightness is zero, and every non-blank glyph a byte of
matrix_chars. -/
def CellOk (g : Nat) (b : Int) : Prop :=
  0 ≤ b ∧ b ≤ 10 ∧ (g = 32 ↔ b = 0) ∧ (g ≠ 32 → g ∈ matrixCharsBytes)

/-- The grid invariant: every cell satisfies the cell invariant. -/
def GridOk (st : MState) : Prop :=
  ∀ r c, CellOk (st.screen r c) (st.brightness r c)

/-- The per-column data of one column is in range: speed in [1, 4], trail
length in [7, 10], counter in [0, speed). -/
def ColDataOk (st : MState) (col : Nat) : Prop :=
  1 ≤ st.speeds col ∧ st.speeds col ≤ 4 ∧ 7 ≤ st.lengths col ∧ st.lengths col ≤ 10 ∧
    0 ≤ st.counters col ∧ st.counters col < st.speeds col

/-- The column invariant: every column of the grid is in range. -/
def ColOk (st : MState) : Prop :=
  ∀ col, col < st.width → ColDataOk st col

section Helpers

/-- A property preserved by every step of a fold holds of the result. -/
theorem foldl_pres {α β : Type} (f : α → β → α) (P : α → Prop) :
    ∀ (l : List β) (a : α), (∀ b x, x ∈ l → P b → P (f b x)) → P a → P (l.foldl f a)
  | [], _, _, ha => ha
  | x :: t, a, hf, ha =>
    foldl_pres f P t (f a x) (fun b y hy => hf b y (List.mem_cons_of_mem x hy))
      (hf a x (List.mem_cons_self x t) ha)

/-- A projection untouched by every step of a fold is untouched by the fold. -/
theorem foldl_proj_const {α β γ : Type} (f : α → β → α) (proj : α → γ) :
    ∀ (l : List β) (a : α), (∀ b x, x ∈ l → proj (f b x) = proj b) →
      proj (l.foldl f a) = proj a
  | [], _, _ => rfl
  | x :: t, a, hf => by
    rw [List.foldl_cons,
      foldl_proj_const f proj t (f a x) (fun b y hy => hf b y (List.mem_cons_of_mem x hy)),
      hf a x (List.mem_cons_self x t)]

/-- Processing a duplicate-free list that contains x, where every other
element leaves the projection alone, is — through the projection — one
application of the step at x to a state that still carries the initial
projection. -/
theorem foldl_isolate {α β γ : Type} (f : α → β → α) (proj : α → γ) (x : β) :
    ∀ (l : List β) (a : α), (∀ b y, y ∈ l → y ≠ x → proj (f b y) = proj b) →
      x ∈ l → l.Nodup →
      ∃ a0, proj a0 = proj a ∧ proj (l.foldl f a) = proj (f a0 x)
  | [], _, _, hmem, _ => absurd hmem (List.not_mem_nil x)
  | y :: t, a, hframe, hmem, hnd => by
    rcases List.nodup_cons.mp hnd with ⟨hyt, hndt⟩
    by_cases hyx : y = x
    · subst hyx
      refine ⟨a, rfl, ?_⟩
      rw [List.foldl_cons]
      exact foldl_proj_const f proj t (f a y)
        (fun b z hz => hframe b z (List.mem_cons_of_mem y hz)
          (fun hzx => hyt (hzx ▸ hz)))
    · have hxt : x ∈ t := by
        rcases List.mem_cons.mp hmem with h | h
        · exact absurd h.symm hyx
        · exact h
      obtain ⟨a0, h1, h2⟩ := foldl_isolate f proj x t (f a y)
        (fun b z hz => hframe b z (List.mem_cons_of_mem y hz)) hxt hndt
      exact ⟨a0, h1.trans (hframe a y (List.mem_cons_self y t) hyx), h2⟩

theorem updF_self {α : Type} (f : Nat → α) (i : Nat) (v : α) : updF f i v i = v := by
  simp [updF]

theorem updF_ne {α : Type} (f : Nat → α) (i : Nat) (v : α) {j : Nat} (h : j ≠ i) :
    updF f i v j = f j := by
  simp [updF, h]

theorem upd2_self {α : Type} (f : Nat → Nat → α) (r c : Nat) (v : α) : upd2 f r c v r c = v := by
  simp [upd2]

theorem upd2_ne {α : Type} (f : Nat → Nat → α) (r c : Nat) (v : α) {r1 c1 : Nat}
    (h : r1 ≠ r ∨ c1 ≠ c) : upd2 f r c v r1 c1 = f r1 c1 := by
  have hno : ¬ (r1 = r ∧ c1 = c) := by
    intro hc
    rcases h with h | h
    · exact h hc.1
    · exact h hc.2
  simp [upd2, hno]

theorem draw_fst_ge (lo hi : Nat) (r : Rng) : lo ≤ (draw lo hi r).1 := by
  simp [draw]

theorem draw_fst_le (lo hi : Nat) (r : Rng) (h : lo ≤ hi) : (draw lo hi r).1 ≤ hi := by
  have hpos : 0 < hi + 1 - lo := by omega
  have := Nat.mod_lt (r.stream r.pos) hpos
  simp only [draw]
  omega

set_option maxRecDepth 8000
set_option maxHeartbeats 1000000

theorem mcb_length : matrixCharsBytes.length = 158 := by decide

theorem mcb_not_mem_32 : ¬ (32 ∈ matrixCharsBytes) := by decide

theorem mcb_getD_mem (gi : Nat) (h : gi < matrixCharsBytes.length) :
    matrixCharsBytes.getD gi 0 ∈ matrixCharsBytes := by
  rw [List.getD_eq_getElem matrixCharsBytes 0 h]
  exact List.getElem_mem h

theorem draw_char_lt (r : Rng) :
    (draw 0 (matrixCharsBytes.length - 1) r).1 < matrixCharsBytes.length := by
  have := draw_fst_le 0 (matrixCharsBytes.length - 1) r (Nat.zero_le _)
  have := mcb_length
  omega

theorem fresh_glyph_mem (r : Rng) :
    matrixCharsBytes.getD (draw 0 (matrixCharsBytes.length - 1) r).1 0 ∈ matrixCharsBytes :=
  mcb_getD_mem _ (draw_char_lt r)

theorem fresh_glyph_ne_32 (r : Rng) :
    matrixCharsBytes.getD (draw 0 (matrixCharsBytes.length - 1) r).1 0 ≠ 32 :=
  fun h => mcb_not_mem_32 (h ▸ fresh_glyph_mem r)

end Helpers

section Preservation

theorem fadePass_misc (st : MState) :
    (fadePass st).width = st.width ∧ (fadePass st).height = st.height ∧
    (fadePass st).drops = st.drops ∧ (fadePass st).speeds = st.speeds ∧
    (fadePass st).lengths = st.lengths ∧ (fadePass st).counters = st.counters :=
  ⟨rfl, rfl, rfl, rfl, rfl, rfl⟩

theorem headWrite_misc (col : Nat) (d : Int) (st : MState) :
    (headWrite col d st).width = st.width ∧ (headWrite col d st).height = st.height ∧
    (headWrite col d st).drops = st.drops ∧ (headWrite col d st).speeds = st.speeds ∧
    (headWrite col d st).lengths = st.lengths ∧ (headWrite col d st).counters = st.counters := by
  unfold headWrite
  split <;> exact ⟨rfl, rfl, rfl, rfl, rfl, rfl⟩

theorem tailStep_misc (col : Nat) (d : Int) (st : MState) (i : Nat) :
    (tailStep col d st i).width = st.width ∧ (tailStep col d st i).height = st.height ∧
    (tailStep col d st i).drops = st.drops ∧ (tailStep col d st i).speeds = st.speeds ∧
    (tailStep col d st i).lengths = st.lengths ∧
    (tailStep col d st i).counters = st.counters := by
  unfold tailStep
  split
  · split <;> exact ⟨rfl, rfl, rfl, rfl, rfl, rfl⟩
  · exact ⟨rfl, rfl, rfl, rfl, rfl, rfl⟩

theorem tailWrites_misc (col : Nat) (d len : Int) (st : MState) :
    (tailWrites col d len st).width = st.width ∧ (tailWrites col d len st).height = st.height ∧
    (tailWrites col d len st).drops = st.drops ∧ (tailWrites col d len st).speeds = st.speeds ∧
    (tailWrites col d len st).lengths = st.lengths ∧
    (tailWrites col d len st).counters = st.counters := by
  have h := foldl_proj_const (tailStep col d)
    (fun s => (s.width, s.height, s.drops, s.speeds, s.lengths, s.counters))
    (tailIdxs len) st (fun b x _ => by
      obtain ⟨h1, h2, h3, h4, h5, h6⟩ := tailStep_misc col d b x
      simp [h1, h2, h3, h4, h5, h6])
  simpa [tailWrites, Prod.ext_iff] using h

theorem resetCheck_misc (col : Nat) (st : MState) :
    (resetCheck col st).width = st.width ∧ (resetCheck col st).height = st.height ∧
    (resetCheck col st).counters = st.counters ∧ (resetCheck col st).screen = st.screen ∧
    (resetCheck col st).brightness = st.brightness := by
  unfold resetCheck
  split <;> exact ⟨rfl, rfl, rfl, rfl, rfl⟩

theorem resetCheck_frame (col : Nat) (st : MState) {c : Nat} (h : c ≠ col) :
    (resetCheck col st).drops c = st.drops c ∧ (resetCheck col st).speeds c = st.speeds c ∧
    (resetCheck col st).lengths c = st.lengths c := by
  unfold resetCheck
  split
  · exact ⟨updF_ne _ _ _ h, updF_ne _ _ _ h, updF_ne _ _ _ h⟩
  · exact ⟨rfl, rfl, rfl⟩

theorem updateColumn_width (col : Nat) (st : MState) : (updateColumn col st).width = st.width := by
  unfold updateColumn
  split
  · rw [(resetCheck_misc _ _).1, (tailWrites_misc _ _ _ _).1, (headWrite_misc _ _ _).1]
  · rfl

theorem updateColumn_height (col : Nat) (st : MState) :
    (updateColumn col st).height = st.height := by
  unfold updateColumn
  split
  · rw [(resetCheck_misc _ _).2.1, (tailWrites_misc _ _ _ _).2.1, (headWrite_misc _ _ _).2.1]
  · rfl

/-- Processing one column leaves every other column's state untouched. -/
theorem updateColumn_frame (col : Nat) (st : MState) {c : Nat} (h : c ≠ col) :
    (updateColumn col st).counters c = st.counters c ∧
    (updateColumn col st).speeds c = st.speeds c ∧
    (updateColumn col st).drops c = st.drops c ∧
    (updateColumn col st).lengths c = st.lengths c := by
  unfold updateColumn
  split
  · obtain ⟨hd, hs, hl⟩ := resetCheck_frame col
      (tailWrites col (st.drops col + 1) (st.lengths col)
        (headWrite col (st.drops col + 1)
          { st with counters := updF st.counters col 0,
                    drops := updF st.drops col (st.drops col + 1) })) h
    obtain ⟨_, _, htd, hts, htl, htc⟩ := tailWrites_misc col (st.drops col + 1) (st.lengths col)
      (headWrite col (st.drops col + 1)
        { st with counters := updF st.counters col 0,
                  drops := updF st.drops col (st.drops col + 1) })
    obtain ⟨_, _, hhd, hhs, hhl, hhc⟩ := headWrite_misc col (st.drops col + 1)
      { st with counters := updF st.counters col 0,
                drops := updF st.drops col (st.drops col + 1) }
    refine ⟨?_, ?_, ?_, ?_⟩
    · rw [(resetCheck_misc _ _).2.2.1, htc, hhc]
      exact updF_ne _ _ _ h
    · rw [hs, hts, hhs]
    · rw [hd, htd, hhd]
      exact updF_ne _ _ _ h
    · rw [hl, htl, hhl]
  · exact ⟨updF_ne _ _ _ h, rfl, rfl, rfl⟩

end Preservation

section ColumnIsolation

/-- What the respawn check does to its own column. -/
theorem resetCheck_self (col : Nat) (st : MState) :
    (resetCheck col st).counters col = st.counters col ∧
    (¬ ((st.height : Int) < st.drops col - st.lengths col) →
      (resetCheck col st).drops col = st.drops col ∧
      (resetCheck col st).speeds col = st.speeds col ∧
      (resetCheck col st).lengths col = st.lengths col) ∧
    (((st.height : Int) < st.drops col - st.lengths col) →
      (∃ sp : Int, 0 ≤ sp ∧ sp ≤ 50 ∧ (resetCheck col st).drops col = -sp - st.lengths col) ∧
      1 ≤ (resetCheck col st).speeds col ∧ (resetCheck col st).speeds col ≤ 4 ∧
      7 ≤ (resetCheck col st).lengths col ∧ (resetCheck col st).lengths col ≤ 10) := by
  refine ⟨congrFun (resetCheck_misc col st).2.2.1 col, ?_, ?_⟩
  · intro hc
    unfold resetCheck
    rw [if_neg hc]
    exact ⟨rfl, rfl, rfl⟩
  · intro hc
    unfold resetCheck
    rw [if_pos hc]
    refine ⟨⟨((draw 0 50 st.rng).1 : Int), Int.natCast_nonneg _, ?_, ?_⟩, ?_, ?_, ?_, ?_⟩
    · exact_mod_cast draw_fst_le 0 50 st.rng (by omega)
    · simp [updF_self]
    · simp only [updF_self]
      exact_mod_cast draw_fst_ge 1 4 _
    · simp only [updF_self]
      exact_mod_cast draw_fst_le 1 4 _ (by omega)
    · simp only [updF_self]
      exact_mod_cast draw_fst_ge 7 10 _
    · simp only [updF_self]
      exact_mod_cast draw_fst_le 7 10 _ (by omega)

/-- What processing a column does to that column's own data, in the
non-advancing case. -/
theorem updateColumn_self_no_adv (col : Nat) (st : MState)
    (h : ¬ st.speeds col ≤ st.counters col + 1) :
    (updateColumn col st).counters col = st.counters col + 1 ∧
    (updateColumn col st).speeds col = st.speeds col ∧
    (updateColumn col st).drops col = st.drops col ∧
    (updateColumn col st).lengths col = st.lengths col := by
  unfold updateColumn
  rw [if_neg h]
  exact ⟨updF_self _ _ _, rfl, rfl, rfl⟩

/-- What processing a column does to that column's own data, in the advancing
case: the counter resets, and the head either moves down one row or — when
the trail has scrolled past the bottom — respawns with a spawn-delay draw
subtracted by the current trail length, plus fresh speed and trail draws. -/
theorem updateColumn_self_adv (col : Nat) (st : MState)
    (h : st.speeds col ≤ st.counters col + 1) :
    (updateColumn col st).counters col = 0 ∧
    (¬ ((st.height : Int) < st.drops col + 1 - st.lengths col) →
      (updateColumn col st).drops col = st.drops col + 1 ∧
      (updateColumn col st).speeds col = st.speeds col ∧
      (updateColumn col st).lengths col = st.lengths col) ∧
    (((st.height : Int) < st.drops col + 1 - st.lengths col) →
      (∃ sp : Int, 0 ≤ sp ∧ sp ≤ 50 ∧
        (updateColumn col st).drops col = -sp - st.lengths col) ∧
      1 ≤ (updateColumn col st).speeds col ∧ (updateColumn col st).speeds col ≤ 4 ∧
      7 ≤ (updateColumn col st).lengths col ∧ (updateColumn col st).lengths col ≤ 10) := by
  have hbase :
      (tailWrites col (st.drops col + 1) (st.lengths col)
        (headWrite col (st.drops col + 1)
          { st with counters := updF st.counters col 0,
                    drops := updF st.drops col (st.drops col + 1) })).counters col = 0 ∧
      (tailWrites col (st.drops col + 1) (st.lengths col)
        (headWrite col (st.drops col + 1)
          { st with counters := updF st.counters col 0,
                    drops := updF st.drops col (st.drops col + 1) })).drops col
        = st.drops col + 1 ∧
      (tailWrites col (st.drops col + 1) (st.lengths col)
        (headWrite col (st.drops col + 1)
          { st with counters := updF st.counters col 0,
                    drops := updF st.drops col (st.drops col + 1) })).speeds col
        = st.speeds col ∧
      (tailWrites col (st.drops col + 1) (st.lengths col)
        (headWrite col (st.drops col + 1)
          { st with counters := updF st.counters col 0,
                    drops := updF st.drops col (st.drops col + 1) })).lengths col
        = st.lengths col ∧
      (tailWrites col (st.drops col + 1) (st.lengths col)
        (headWrite col (st.drops col + 1)
          { st with counters := updF st.counters col 0,
                    drops := updF st.drops col (st.drops col + 1) })).height = st.height := by
    obtain ⟨_, hth, htd, hts, htl, htc⟩ := tailWrites_misc col (st.drops col + 1)
      (st.lengths col)
      (headWrite col (st.drops col + 1)
        { st with counters := updF st.counters col 0,
                  drops := updF st.drops col (st.drops col + 1) })
    obtain ⟨_, hhh, hhd, hhs, hhl, hhc⟩ := headWrite_misc col (st.drops col + 1)
      { st with counters := updF st.counters col 0,
                drops := updF st.drops col (st.drops col + 1) }
    refine ⟨?_, ?_, ?_, ?_, ?_⟩
    · rw [htc, hhc]; exact updF_self _ _ _
    · rw [htd, hhd]; exact updF_self _ _ _
    · rw [hts, hhs]
    · rw [htl, hhl]
    · rw [hth, hhh]
  obtain ⟨hc0, hd1, hs1, hl1, hh1⟩ := hbase
  obtain ⟨hrc, hrno, hryes⟩ := resetCheck_self col
    (tailWrites col (st.drops col + 1) (st.lengths col)
      (headWrite col (st.drops col + 1)
        { st with counters := updF st.counters col 0,
                  drops := updF st.drops col (st.drops col + 1) }))
  rw [hc0] at hrc
  rw [hh1, hd1, hl1] at hrno hryes
  rw [hs1] at hrno
  unfold updateColumn
  rw [if_pos h]
  exact ⟨hrc, hrno, hryes⟩

/-- Through one whole tick, a column's own data is that of one updateColumn
application to a state carrying the same column data. -/
theorem tick_isolate (st : MState) (col : Nat) (h : col < st.width) :
    ∃ a0 : MState,
      a0.counters col = st.counters col ∧ a0.speeds col = st.speeds col ∧
      a0.drops col = st.drops col ∧ a0.lengths col = st.lengths col ∧
      a0.height = st.height ∧
      (tick st).counters col = (updateColumn col a0).counters col ∧
      (tick st).speeds col = (updateColumn col a0).speeds col ∧
      (tick st).drops col = (updateColumn col a0).drops col ∧
      (tick st).lengths col = (updateColumn col a0).lengths col := by
  have hiso := foldl_isolate (fun s c => updateColumn c s)
    (fun s => (s.counters col, s.speeds col, s.drops col, s.lengths col, s.height))
    col (List.range (fadePass st).width) (fadePass st)
    (fun b y _ hy => by
      obtain ⟨h1, h2, h3, h4⟩ := updateColumn_frame y b (Ne.symm hy)
      simp [h1, h2, h3, h4, updateColumn_height])
    (by simpa using h) (List.nodup_range _)
  obtain ⟨a0, heq1, heq2⟩ := hiso
  simp only [Prod.mk.injEq] at heq1 heq2
  exact ⟨a0, heq1.1, heq1.2.1, heq1.2.2.1, heq1.2.2.2.1,
    heq1.2.2.2.2, heq2.1, heq2.2.1, heq2.2.2.1, heq2.2.2.2.1⟩

end ColumnIsolation

theorem tick_width (st : MState) : (tick st).width = st.width := by
  have := foldl_proj_const (fun s c => updateColumn c s) MState.width
    (List.range (fadePass st).width) (fadePass st)
    (fun b x _ => updateColumn_width x b)
  simpa [tick, columnsPass] using this

theorem tick_height (st : MState) : (tick st).height = st.height := by
  have := foldl_proj_const (fun s c => updateColumn c s) MState.height
    (List.range (fadePass st).width) (fadePass st)
    (fun b x _ => updateColumn_height x b)
  simpa [tick, columnsPass] using this

/-- What one tick does to one column's data, phrased on the pre-tick state:
the counter mechanism, the advance by one row, and the respawn ranges. -/
theorem tick_col (st : MState) (col : Nat) (h : col < st.width) :
    (¬ advancesNow st col →
      (tick st).counters col = st.counters col + 1 ∧
      (tick st).speeds col = st.speeds col ∧
      (tick st).drops col = st.drops col ∧
      (tick st).lengths col = st.lengths col) ∧
    (advancesNow st col →
      (tick st).counters col = 0 ∧
      (¬ ((st.height : Int) < st.drops col + 1 - st.lengths col) →
        (tick st).drops col = st.drops col + 1 ∧
        (tick st).speeds col = st.speeds col ∧
        (tick st).lengths col = st.lengths col) ∧
      (((st.height : Int) < st.drops col + 1 - st.lengths col) →
        (∃ sp : Int, 0 ≤ sp ∧ sp ≤ 50 ∧ (tick st).drops col = -sp - st.lengths col) ∧
        1 ≤ (tick st).speeds col ∧ (tick st).speeds col ≤ 4 ∧
        7 ≤ (tick st).lengths col ∧ (tick st).lengths col ≤ 10)) := by
  obtain ⟨a0, hc, hs, hd, hl, hh, tc, ts, td, tl⟩ := tick_isolate st col h
  constructor
  · intro hna
    have hna0 : ¬ a0.speeds col ≤ a0.counters col + 1 := by
      rw [hs, hc]; exact hna
    obtain ⟨x1, x2, x3, x4⟩ := updateColumn_self_no_adv col a0 hna0
    exact ⟨by rw [tc, x1, hc], by rw [ts, x2, hs], by rw [td, x3, hd], by rw [tl, x4, hl]⟩
  · intro ha
    have ha0 : a0.speeds col ≤ a0.counters col + 1 := by rw [hs, hc]; exact ha
    obtain ⟨x1, x2, x3⟩ := updateColumn_self_adv col a0 ha0
    rw [hh, hd, hl] at x2 x3
    rw [hs] at x2
    refine ⟨by rw [tc]; exact x1, fun hno => ?_, fun hyes => ?_⟩
    · obtain ⟨y1, y2, y3⟩ := x2 hno
      exact ⟨by rw [td]; exact y1, by rw [ts]; exact y2, by rw [tl]; exact y3⟩
    · obtain ⟨⟨sp, z1, z2, z3⟩, z4, z5, z6, z7⟩ := x3 hyes
      exact ⟨⟨sp, z1, z2, by rw [td]; exact z3⟩, by rw [ts]; exact z4, by rw [ts]; exact z5,
        by rw [tl]; exact z6, by rw [tl]; exact z7⟩

/-- Starting from a freshly reset counter, the first s - 1 ticks leave the
column resting: counter k, unchanged speed, head row and trail length. -/
theorem tick_iter_pre (st : MState) (col : Nat) (s : Int)
    (hcol : col < st.width) (h0 : st.counters col = 0) (hs : st.speeds col = s) :
    ∀ k : Nat, k < s.toNat →
      (tick^[k] st).counters col = (k : Int) ∧ (tick^[k] st).speeds col = s ∧
      (tick^[k] st).drops col = st.drops col ∧ (tick^[k] st).lengths col = st.lengths col ∧
      (tick^[k] st).width = st.width
  | 0, _ => ⟨by simpa using h0, by simpa using hs, rfl, rfl, rfl⟩
  | (k + 1), hk => by
    have hk2 : k < s.toNat := by omega
    obtain ⟨ic, is, id, il, iw⟩ := tick_iter_pre st col s hcol h0 hs k hk2
    have hcolk : col < (tick^[k] st).width := by rw [iw]; exact hcol
    have hna : ¬ advancesNow (tick^[k] st) col := by
      show ¬ ((tick^[k] st).speeds col ≤ (tick^[k] st).counters col + 1)
      rw [is, ic]
      omega
    obtain ⟨hno, _⟩ := tick_col (tick^[k] st) col hcolk
    obtain ⟨y1, y2, y3, y4⟩ := hno hna
    rw [Function.iterate_succ_apply']
    refine ⟨by rw [y1, ic]; push_cast; ring, by rw [y2, is], by rw [y3, id], by rw [y4, il],
      by rw [tick_width, iw]⟩

section Invariants

theorem cellOk_blank : CellOk 32 0 :=
  ⟨le_refl 0, by omega, by simp, by simp⟩

theorem fadeCell_ok {g : Nat} {b : Int} (h : CellOk g b) :
    CellOk (fadeCell g b).1 (fadeCell g b).2 := by
  obtain ⟨h0, h10, hiff, hmem⟩ := h
  unfold fadeCell
  by_cases hb : 0 < b
  · rw [if_pos hb]
    by_cases hb3 : b - 3 ≤ 0
    · rw [if_pos hb3]
      exact cellOk_blank
    · rw [if_neg hb3]
      refine ⟨by omega, by omega, ⟨fun hg => absurd (hiff.mp hg) (by omega), fun hb0 => by omega⟩,
        hmem⟩
  · rw [if_neg hb]
    exact ⟨h0, h10, hiff, hmem⟩

theorem fadePass_gridOk {st : MState} (h : GridOk st) : GridOk (fadePass st) := by
  intro r c
  show CellOk ((fadePass st).screen r c) ((fadePass st).brightness r c)
  simp only [fadePass]
  by_cases hin : r < st.height ∧ c < st.width
  · simp only [if_pos hin]
    exact fadeCell_ok (h r c)
  · simp only [if_neg hin]
    exact h r c

theorem cellOk_fresh (r : Rng) {b : Int} (h1 : 1 ≤ b) (h10 : b ≤ 10) :
    CellOk (matrixCharsBytes.getD (draw 0 (matrixCharsBytes.length - 1) r).1 0) b :=
  ⟨by omega, h10,
    ⟨fun hg => absurd hg (fresh_glyph_ne_32 r), fun hb => by omega⟩,
    fun _ => fresh_glyph_mem r⟩

theorem headWrite_gridOk {st : MState} (col : Nat) (d : Int) (h : GridOk st) :
    GridOk (headWrite col d st) := by
  intro r c
  show CellOk ((headWrite col d st).screen r c) ((headWrite col d st).brightness r c)
  unfold headWrite
  split
  · show CellOk (upd2 st.screen d.toNat col _ r c) (upd2 st.brightness d.toNat col 10 r c)
    by_cases he : r = d.toNat ∧ c = col
    · rw [upd2, upd2, if_pos he, if_pos he]
      exact cellOk_fresh st.rng (by omega) (by omega)
    · rw [upd2_ne _ _ _ _ (not_and_or.mp he), upd2_ne _ _ _ _ (not_and_or.mp he)]
      exact h r c
  · exact h r c

theorem tailStep_gridOk {st : MState} (col : Nat) (d : Int) (i : Nat) (h : GridOk st) :
    GridOk (tailStep col d st i) := by
  intro r c
  show CellOk ((tailStep col d st i).screen r c) ((tailStep col d st i).brightness r c)
  unfold tailStep
  split
  · split
    · show CellOk (upd2 st.screen (d - (i : Int)).toNat col _ r c)
        (upd2 st.brightness (d - (i : Int)).toNat col (max 1 (10 - (i : Int))) r c)
      by_cases he : r = (d - (i : Int)).toNat ∧ c = col
      · rw [upd2, upd2, if_pos he, if_pos he]
        exact cellOk_fresh st.rng (le_max_left _ _) (by omega)
      · rw [upd2_ne _ _ _ _ (not_and_or.mp he), upd2_ne _ _ _ _ (not_and_or.mp he)]
        exact h r c
    · exact h r c
  · exact h r c

theorem tailWrites_gridOk {st : MState} (col : Nat) (d len : Int) (h : GridOk st) :
    GridOk (tailWrites col d len st) :=
  foldl_pres (tailStep col d) GridOk (tailIdxs len) st
    (fun b x _ hb => tailStep_gridOk col d x hb) h

theorem resetCheck_gridOk {st : MState} (col : Nat) (h : GridOk st) :
    GridOk (resetCheck col st) := by
  intro r c
  show CellOk ((resetCheck col st).screen r c) ((resetCheck col st).brightness r c)
  rw [(resetCheck_misc col st).2.2.2.1, (resetCheck_misc col st).2.2.2.2]
  exact h r c

theorem updateColumn_gridOk {st : MState} (col : Nat) (h : GridOk st) :
    GridOk (updateColumn col st) := by
  unfold updateColumn
  split
  · exact resetCheck_gridOk col (tailWrites_gridOk col _ _
      (headWrite_gridOk col _ (fun r c => h r c)))
  · exact fun r c => h r c

theorem tick_gridOk {st : MState} (h : GridOk st) : GridOk (tick st) :=
  foldl_pres (fun s c => updateColumn c s) GridOk (List.range (fadePass st).width)
    (fadePass st) (fun b x _ hb => updateColumn_gridOk x hb) (fadePass_gridOk h)

theorem initializeMatrix_gridOk (w h : Nat) (r : Rng) : GridOk (initializeMatrix w h r) :=
  foldl_pres (fun s i => initColumn i s) GridOk (List.range w) _
    (fun b x _ hb => fun r1 c1 => hb r1 c1) (fun _ _ => cellOk_blank)

theorem run_gridOk (w h : Nat) (r : Rng) (n : Nat) : GridOk (run w h r n) := by
  induction n with
  | zero => exact initializeMatrix_gridOk w h r
  | succ n ih =>
    show GridOk (tick^[n + 1] (initializeMatrix w h r))
    rw [Function.iterate_succ_apply']
    exact tick_gridOk ih

theorem reachable_gridOk {st : MState} (h : Reachable st) : GridOk st := by
  obtain ⟨w, hh, r, n, rfl⟩ := h
  exact run_gridOk w hh r n

end Invariants

section ColumnInvariant

theorem initColumn_sets (i : Nat) (st : MState) : ColDataOk (initColumn i st) i := by
  unfold ColDataOk initColumn
  simp only [updF_self]
  refine ⟨?_, ?_, ?_, ?_, le_refl 0, ?_⟩
  · exact_mod_cast draw_fst_ge 1 4 _
  · exact_mod_cast draw_fst_le 1 4 _ (by omega)
  · exact_mod_cast draw_fst_ge 7 10 _
  · exact_mod_cast draw_fst_le 7 10 _ (by omega)
  · have : (1 : Int) ≤ ((draw 1 4 (draw 7 10 (draw 0 50 st.rng).2).2).1 : Int) := by
      exact_mod_cast draw_fst_ge 1 4 _
    omega

theorem initColumn_pres (i : Nat) (st : MState) {c : Nat} (h : ColDataOk st c) :
    ColDataOk (initColumn i st) c := by
  by_cases hc : c = i
  · subst hc
    exact initColumn_sets c st
  · unfold ColDataOk initColumn
    simp only [updF_ne _ _ _ hc]
    exact h

theorem init_fold_all :
    ∀ (l : List Nat) (st : MState) (col : Nat), (col ∈ l ∨ ColDataOk st col) →
      ColDataOk (l.foldl (fun s i => initColumn i s) st) col
  | [], _, col, h => h.resolve_left (List.not_mem_nil col)
  | i :: t, st, col, h => by
    rw [List.foldl_cons]
    apply init_fold_all t
    by_cases hci : col = i
    · right
      subst hci
      exact initColumn_sets col st
    · rcases h with hm | hok
      · rcases List.mem_cons.mp hm with h1 | h2
        · exact absurd h1 hci
        · exact Or.inl h2
      · exact Or.inr (initColumn_pres i st hok)

theorem initializeMatrix_width (w h : Nat) (r : Rng) : (initializeMatrix w h r).width = w := by
  have := foldl_proj_const (fun s i => initColumn i s) MState.width (List.range w)
    { width := w, height := h,
      screen := fun _ _ => 32, brightness := fun _ _ => 0,
      drops := fun _ => 0, speeds := fun _ => 0,
      lengths := fun _ => 0, counters := fun _ => 0,
      rng := r } (fun _ _ _ => rfl)
  simpa [initializeMatrix] using this

theorem initializeMatrix_colOk (w h : Nat) (r : Rng) : ColOk (initializeMatrix w h r) := by
  intro col hcol
  rw [initializeMatrix_width] at hcol
  exact init_fold_all (List.range w) _ col (Or.inl (List.mem_range.mpr hcol))

theorem updateColumn_colDataOk (c : Nat) {st : MState} (hc : ColDataOk st c) :
    ColDataOk (updateColumn c st) c := by
  by_cases hadv : st.speeds c ≤ st.counters c + 1
  · obtain ⟨x1, x2, x3⟩ := updateColumn_self_adv c st hadv
    by_cases hrs : (st.height : Int) < st.drops c + 1 - st.lengths c
    · obtain ⟨_, z4, z5, z6, z7⟩ := x3 hrs
      exact ⟨z4, z5, z6, z7, by omega, by omega⟩
    · obtain ⟨_, y2, y3⟩ := x2 hrs
      obtain ⟨w1, w2, w3, w4, _, _⟩ := hc
      exact ⟨by omega, by omega, by omega, by omega, by omega, by omega⟩
  · obtain ⟨x1, x2, x3, x4⟩ := updateColumn_self_no_adv c st hadv
    obtain ⟨w1, w2, w3, w4, w5, w6⟩ := hc
    exact ⟨by omega, by omega, by omega, by omega, by omega, by omega⟩

theorem updateColumn_colDataOk_other (c : Nat) {st : MState} {col : Nat} (h : col ≠ c)
    (hc : ColDataOk st col) : ColDataOk (updateColumn c st) col := by
  obtain ⟨f1, f2, f3, f4⟩ := updateColumn_frame c st h
  unfold ColDataOk
  rw [f1, f2, f4]
  exact hc

theorem tick_colOk {st : MState} (h : ColOk st) : ColOk (tick st) := by
  have hP := foldl_pres (fun s c => updateColumn c s)
    (fun s => s.width = st.width ∧ ∀ col, col < st.width → ColDataOk s col)
    (List.range (fadePass st).width) (fadePass st)
    (fun b x hx hb => by
      refine ⟨by rw [updateColumn_width]; exact hb.1, fun col hcol => ?_⟩
      by_cases hcx : col = x
      · subst hcx
        exact updateColumn_colDataOk col (hb.2 col hcol)
      · exact updateColumn_colDataOk_other x hcx (hb.2 col hcol))
    ⟨rfl, fun col hcol => h col hcol⟩
  intro col hcol
  rw [tick_width] at hcol
  exact hP.2 col hcol

theorem run_colOk (w h : Nat) (r : Rng) (n : Nat) : ColOk (run w h r n) := by
  induction n with
  | zero => exact initializeMatrix_colOk w h r
  | succ n ih =>
    show ColOk (tick^[n + 1] (initializeMatrix w h r))
    rw [Function.iterate_succ_apply']
    exact tick_colOk ih

theorem reachable_colOk {st : MState} (h : Reachable st) : ColOk st := by
  obtain ⟨w, hh, r, n, rfl⟩ := h
  exact run_colOk w hh r n

end ColumnInvariant

section CellIsolation

theorem tailIdxs_eq (len : Int) : tailIdxs len = (List.range (len.toNat - 1)).map Nat.succ := by
  unfold tailIdxs
  cases h : len.toNat with
  | zero => simp
  | succ n => rw [List.range_succ_eq_map]; simp

theorem mem_tailIdxs {len : Int} {i : Nat} : i ∈ tailIdxs len ↔ 1 ≤ i ∧ i < len.toNat := by
  rw [tailIdxs_eq]
  constructor
  · intro hm
    obtain ⟨j, hj, rfl⟩ := List.mem_map.mp hm
    have := List.mem_range.mp hj
    omega
  · intro hc
    exact List.mem_map.mpr ⟨i - 1, List.mem_range.mpr (by omega), by omega⟩

theorem tailIdxs_nodup (len : Int) : (tailIdxs len).Nodup := by
  rw [tailIdxs_eq]
  exact List.Nodup.map Nat.succ_injective (List.nodup_range _)

theorem headWrite_cell_frame (col : Nat) (d : Int) (st : MState) {rN cN : Nat}
    (h : rN ≠ d.toNat ∨ cN ≠ col) :
    (headWrite col d st).screen rN cN = st.screen rN cN ∧
    (headWrite col d st).brightness rN cN = st.brightness rN cN := by
  unfold headWrite
  split
  · exact ⟨upd2_ne _ _ _ _ h, upd2_ne _ _ _ _ h⟩
  · exact ⟨rfl, rfl⟩

/-- The value a tail sweep leaves at the in-window cell of offset i: rewritten
to a fresh glyph with brightness max 1 (10 - i) exactly when the brightness
there was below 10 - i, untouched otherwise. -/
theorem tailWrites_at (col : Nat) (d len : Int) (st : MState) (i : Nat)
    (hi1 : 1 ≤ i) (hilen : (i : Int) < len)
    (h0 : 0 ≤ d - (i : Int)) (hh : d - (i : Int) < (st.height : Int)) :
    (st.brightness (d - (i : Int)).toNat col < 10 - (i : Int) →
      (tailWrites col d len st).brightness (d - (i : Int)).toNat col = max 1 (10 - (i : Int)) ∧
      (tailWrites col d len st).screen (d - (i : Int)).toNat col ∈ matrixCharsBytes) ∧
    (¬ st.brightness (d - (i : Int)).toNat col < 10 - (i : Int) →
      (tailWrites col d len st).brightness (d - (i : Int)).toNat col
        = st.brightness (d - (i : Int)).toNat col ∧
      (tailWrites col d len st).screen (d - (i : Int)).toNat col
        = st.screen (d - (i : Int)).toNat col) := by
  have hmem : i ∈ tailIdxs len := mem_tailIdxs.mpr ⟨hi1, by omega⟩
  obtain ⟨a0, ha1, ha2⟩ := foldl_isolate (tailStep col d)
    (fun s => (s.screen (d - (i : Int)).toNat col, s.brightness (d - (i : Int)).toNat col,
      s.height))
    i (tailIdxs len) st
    (fun b y _ hyne => by
      by_cases hc1 : 0 ≤ d - (y : Int) ∧ d - (y : Int) < (b.height : Int)
      · by_cases hc2 : b.brightness (d - (y : Int)).toNat col < 10 - (y : Int)
        · unfold tailStep
          rw [if_pos hc1, if_pos hc2]
          have hne : (d - (i : Int)).toNat ≠ (d - (y : Int)).toNat := by
            have hy1 := hc1.1
            have : (y : Int) ≠ (i : Int) := by exact_mod_cast hyne
            omega
          show (upd2 b.screen _ col _ _ col, upd2 b.brightness _ col _ _ col, b.height)
            = (b.screen _ col, b.brightness _ col, b.height)
          rw [upd2_ne _ _ _ _ (Or.inl hne), upd2_ne _ _ _ _ (Or.inl hne)]
        · unfold tailStep
          rw [if_pos hc1, if_neg hc2]
      · unfold tailStep
        rw [if_neg hc1])
    hmem (tailIdxs_nodup len)
  simp only [Prod.mk.injEq] at ha1 ha2
  obtain ⟨hs0, hb0, hh0⟩ := ha1
  obtain ⟨ts0, tb0, _⟩ := ha2
  unfold tailWrites
  constructor
  · intro hdim
    have hdim0 : a0.brightness (d - (i : Int)).toNat col < 10 - (i : Int) := by
      rw [hb0]; exact hdim
    have hcond : 0 ≤ d - (i : Int) ∧ d - (i : Int) < (a0.height : Int) := by
      rw [hh0]; exact ⟨h0, hh⟩
    constructor
    · rw [tb0]
      unfold tailStep
      rw [if_pos hcond, if_pos hdim0]
      exact upd2_self _ _ _ _
    · rw [ts0]
      unfold tailStep
      rw [if_pos hcond, if_pos hdim0]
      show upd2 a0.screen _ col _ _ col ∈ matrixCharsBytes
      rw [upd2_self]
      exact fresh_glyph_mem a0.rng
  · intro hbr
    have hbr0 : ¬ a0.brightness (d - (i : Int)).toNat col < 10 - (i : Int) := by
      rw [hb0]; exact hbr
    have hcond : 0 ≤ d - (i : Int) ∧ d - (i : Int) < (a0.height : Int) := by
      rw [hh0]; exact ⟨h0, hh⟩
    constructor
    · rw [tb0]
      unfold tailStep
      rw [if_pos hcond, if_neg hbr0]
      exact hb0
    · rw [ts0]
      unfold tailStep
      rw [if_pos hcond, if_neg hbr0]
      exact hs0

/-- The tail sweep followed by the respawn check does not move the head cell. -/
theorem tail_reset_keep_head (col : Nat) (d len : Int) (s : MState) (hd0 : 0 ≤ d) :
    (resetCheck col (tailWrites col d len s)).screen d.toNat col = s.screen d.toNat col ∧
    (resetCheck col (tailWrites col d len s)).brightness d.toNat col
      = s.brightness d.toNat col := by
  have hT := foldl_pres (tailStep col d)
    (fun t => t.screen d.toNat col = s.screen d.toNat col ∧
      t.brightness d.toNat col = s.brightness d.toNat col)
    (tailIdxs len) s
    (fun b y hy hbp => by
      have hy1 : 1 ≤ y := (mem_tailIdxs.mp hy).1
      by_cases hc1 : 0 ≤ d - (y : Int) ∧ d - (y : Int) < (b.height : Int)
      · by_cases hc2 : b.brightness (d - (y : Int)).toNat col < 10 - (y : Int)
        · unfold tailStep
          rw [if_pos hc1, if_pos hc2]
          have hne : d.toNat ≠ (d - (y : Int)).toNat := by
            have := hc1.1
            omega
          constructor
          · show upd2 b.screen _ col _ d.toNat col = _
            rw [upd2_ne _ _ _ _ (Or.inl hne)]
            exact hbp.1
          · show upd2 b.brightness _ col _ d.toNat col = _
            rw [upd2_ne _ _ _ _ (Or.inl hne)]
            exact hbp.2
        · unfold tailStep
          rw [if_pos hc1, if_neg hc2]
          exact hbp
      · unfold tailStep
        rw [if_neg hc1]
        exact hbp)
    ⟨rfl, rfl⟩
  rw [(resetCheck_misc col (tailWrites col d len s)).2.2.2.1,
    (resetCheck_misc col (tailWrites col d len s)).2.2.2.2]
  exact hT

theorem headWrite_mono (col : Nat) (d : Int) (st : MState)
    (hb : ∀ r c, st.brightness r c ≤ 10) :
    ∀ r c, st.brightness r c ≤ (headWrite col d st).brightness r c := by
  intro r c
  unfold headWrite
  split
  · by_cases he : r = d.toNat ∧ c = col
    · show st.brightness r c ≤ upd2 st.brightness d.toNat col 10 r c
      rw [upd2, if_pos he]
      exact hb r c
    · show st.brightness r c ≤ upd2 st.brightness d.toNat col 10 r c
      rw [upd2_ne _ _ _ _ (not_and_or.mp he)]
  · exact le_refl _

theorem tailStep_mono (col : Nat) (d : Int) (s : MState) (i : Nat) :
    ∀ r c, s.brightness r c ≤ (tailStep col d s i).brightness r c := by
  intro r c
  unfold tailStep
  split
  · split
    · by_cases he : r = (d - (i : Int)).toNat ∧ c = col
      · show s.brightness r c ≤ upd2 s.brightness _ col (max 1 (10 - (i : Int))) r c
        rw [upd2, if_pos he]
        rename_i hdim
        rw [he.1, he.2]
        omega
      · show s.brightness r c ≤ upd2 s.brightness _ col (max 1 (10 - (i : Int))) r c
        rw [upd2_ne _ _ _ _ (not_and_or.mp he)]
    · exact le_refl _
  · exact le_refl _

theorem tailWrites_mono (col : Nat) (d len : Int) (st : MState) :
    ∀ r c, st.brightness r c ≤ (tailWrites col d len st).brightness r c :=
  foldl_pres (tailStep col d)
    (fun s => ∀ r c, st.brightness r c ≤ s.brightness r c)
    (tailIdxs len) st
    (fun b y _ hbp r c => le_trans (hbp r c) (tailStep_mono col d b y r c))
    (fun _ _ => le_refl _)

/-- Within one column pass, no cell is rewritten to a dimmer value. -/
theorem updateColumn_mono (col : Nat) (st : MState)
    (hb : ∀ r c, st.brightness r c ≤ 10) :
    ∀ r c, st.brightness r c ≤ (updateColumn col st).brightness r c := by
  intro r c
  unfold updateColumn
  split
  · rw [(resetCheck_misc col _).2.2.2.2]
    refine le_trans (headWrite_mono col (st.drops col + 1)
      { st with counters := updF st.counters col 0,
                drops := updF st.drops col (st.drops col + 1) }
      (fun r1 c1 => hb r1 c1) r c) ?_
    exact tailWrites_mono col (st.drops col + 1) (st.lengths col) _ r c
  · exact le_refl _

end CellIsolation

section RenderLemmas

theorem cellOut_of_zero {g : Nat} {b : Int} (hb : b = 0) : cellOut g b = [Out.space] := by
  subst hb
  unfold cellOut
  rw [if_neg]
  intro hc
  exact absurd hc.2 (by omega)

theorem flatMap_congr {α β : Type} (f g : α → List β) :
    ∀ l : List α, (∀ x ∈ l, f x = g x) → l.flatMap f = l.flatMap g
  | [], _ => rfl
  | x :: t, h => by
    rw [List.flatMap_cons, List.flatMap_cons, h x (List.mem_cons_self x t),
      flatMap_congr f g t (fun y hy => h y (List.mem_cons_of_mem x hy))]

theorem flatMap_const_single {α β : Type} (a : β) :
    ∀ l : List α, l.flatMap (fun _ => [a]) = List.replicate l.length a
  | [] => rfl
  | _ :: t => by
    rw [List.flatMap_cons, flatMap_const_single a t]
    rfl

theorem rowOut_blank {st : MState} (hb : ∀ r c, st.brightness r c = 0) (r : Nat) :
    rowOut st r = List.replicate st.width Out.space := by
  unfold rowOut
  rw [flatMap_congr _ (fun _ => [Out.space]) _ (fun c _ => cellOut_of_zero (hb r c)),
    flatMap_const_single, List.length_range]

theorem sepRowsN_succ (n w : Nat) :
    sepRowsN (n + 1) w = (List.replicate w Out.space ++ [Out.newline]) ++ sepRowsN n w := rfl

theorem sepRowsN_append (n w : Nat) :
    sepRowsN n w ++ (List.replicate w Out.space ++ [Out.newline]) = sepRowsN (n + 1) w := by
  induction n with
  | zero => simp [sepRowsN]
  | succ n ih =>
    rw [sepRowsN_succ, List.append_assoc, ih, sepRowsN_succ (n + 1) w, sepRowsN_succ n w]

theorem range_flatMap_const (w : Nat) :
    ∀ n : Nat, (List.range n).flatMap
      (fun _ => List.replicate w Out.space ++ [Out.newline]) = sepRowsN n w := by
  intro n
  induction n with
  | zero => rfl
  | succ n ih =>
    rw [List.range_succ, List.flatMap_append, ih]
    simp only [List.flatMap_cons, List.flatMap_nil, List.append_nil]
    exact sepRowsN_append n w

theorem blankFrame_eq (w : Nat) :
    ∀ n : Nat, blankFrame (n + 1) w = sepRowsN n w ++ List.replicate w Out.space
  | 0 => by simp [blankFrame, sepRowsN]
  | n + 1 => by
    show List.replicate w Out.space ++ Out.newline :: blankFrame (n + 1) w = _
    rw [blankFrame_eq w n, sepRowsN_succ]
    simp [List.append_assoc]

theorem render_blank {st : MState} (hb : ∀ r c, st.brightness r c = 0) :
    render st = blankFrame st.height st.width := by
  unfold render
  cases hh : st.height with
  | zero => simp [blankFrame]
  | succ n =>
    rw [List.range_succ, List.flatMap_append]
    have h1 : (List.range n).flatMap
        (fun r => rowOut st r ++ if r < n + 1 - 1 then [Out.newline] else [])
        = sepRowsN n st.width := by
      rw [flatMap_congr _ (fun _ => List.replicate st.width Out.space ++ [Out.newline]) _
        (fun r hr => by
          rw [rowOut_blank hb r, if_pos]
          have := List.mem_range.mp hr
          omega)]
      exact range_flatMap_const st.width n
    have h2 : [n].flatMap
        (fun r => rowOut st r ++ if r < n + 1 - 1 then [Out.newline] else [])
        = List.replicate st.width Out.space := by
      simp [rowOut_blank hb n]
    rw [h1, h2, blankFrame_eq]

theorem sepRowsN_mem {w n : Nat} {o : Out} (h : o ∈ sepRowsN n w) :
    o = Out.space ∨ o = Out.newline := by
  induction n with
  | zero => exact absurd h (List.not_mem_nil o)
  | succ n ih =>
    rw [sepRowsN_succ] at h
    rcases List.mem_append.mp h with h1 | h2
    · rcases List.mem_append.mp h1 with h3 | h4
      · exact Or.inl (List.eq_of_mem_replicate h3)
      · right
        simpa using h4
    · exact ih h2

theorem blankFrame_mem {h w : Nat} {o : Out} (ho : o ∈ blankFrame h w) :
    o = Out.space ∨ o = Out.newline := by
  cases h with
  | zero => exact absurd ho (List.not_mem_nil o)
  | succ n =>
    rw [blankFrame_eq] at ho
    rcases List.mem_append.mp ho with h1 | h2
    · exact sepRowsN_mem h1
    · exact Or.inl (List.eq_of_mem_replicate h2)

theorem count_newline_replicate_space (w : Nat) :
    (List.replicate w Out.space).count Out.newline = 0 :=
  List.count_eq_zero.mpr (fun hmem => by
    have := List.eq_of_mem_replicate hmem
    exact absurd this (by decide))

theorem sepRowsN_count (w n : Nat) : (sepRowsN n w).count Out.newline = n := by
  induction n with
  | zero => rfl
  | succ n ih =>
    rw [sepRowsN_succ, List.count_append, List.count_append, ih,
      count_newline_replicate_space]
    have h1 : List.count Out.newline [Out.newline] = 1 := by decide
    omega

theorem blankFrame_count (h w : Nat) : (blankFrame h w).count Out.newline = h - 1 := by
  cases h with
  | zero => rfl
  | succ n =>
    rw [blankFrame_eq, List.count_append, sepRowsN_count, count_newline_replicate_space]
    omega

theorem newline_not_mem_cellOut (g : Nat) (b : Int) : Out.newline ∉ cellOut g b := by
  unfold cellOut
  split <;> simp

theorem newline_not_mem_rowOut (t : MState) (r : Nat) : Out.newline ∉ rowOut t r := by
  intro hm
  obtain ⟨c, _, hc⟩ := List.mem_flatMap.mp hm
  exact newline_not_mem_cellOut _ _ hc

theorem rowOut_count_newline (t : MState) (r : Nat) :
    (rowOut t r).count Out.newline = 0 :=
  List.count_eq_zero.mpr (newline_not_mem_rowOut t r)

theorem sep_rows_count (t : MState) :
    ∀ n : Nat,
      ((List.range n).flatMap (fun r => rowOut t r ++ [Out.newline])).count Out.newline = n
  | 0 => rfl
  | n + 1 => by
    rw [List.range_succ, List.flatMap_append, List.count_append, sep_rows_count t n]
    simp only [List.flatMap_cons, List.flatMap_nil, List.append_nil, List.count_append,
      rowOut_count_newline]
    have h1 : List.count Out.newline [Out.newline] = 1 := by decide
    omega

/-- For every frame, blank or not: the output is the rows top to bottom with
one separator after every row except the last. -/
theorem render_split (t : MState) (hh : 1 ≤ t.height) :
    render t = (List.range (t.height - 1)).flatMap (fun r => rowOut t r ++ [Out.newline])
      ++ rowOut t (t.height - 1) := by
  unfold render
  cases hht : t.height with
  | zero => omega
  | succ n =>
    simp only [Nat.add_sub_cancel]
    rw [List.range_succ, List.flatMap_append]
    congr 1
    · exact flatMap_congr _ _ _ (fun r hr => by
        rw [if_pos]
        have := List.mem_range.mp hr
        omega)
    · simp

/-- For every frame, blank or not: the number of row separators emitted is
height - 1. -/
theorem render_count_newline (t : MState) :
    (render t).count Out.newline = t.height - 1 := by
  cases hht : t.height with
  | zero =>
    have he : render t = [] := by
      unfold render
      rw [hht]
      rfl
    rw [he]
    rfl
  | succ n =>
    have h1 := render_split t (by omega)
    rw [h1, List.count_append, hht, Nat.add_sub_cancel, sep_rows_count,
      rowOut_count_newline]
    omega

end RenderLemmas

theorem iterate_height (st : MState) : ∀ k : Nat, (tick^[k] st).height = st.height
  | 0 => rfl
  | k + 1 => by rw [Function.iterate_succ_apply', tick_height, iterate_height st k]

section ClaimTheorems

/-- C1: for every reachable simulation state, every cell's brightness lies
within [0, 10] both after the fade pass and after the per-column advance
pass. -/
theorem brightness_within_range (st : MState) (h : Reachable st) :
    ∀ r c, (0 ≤ (fadePass st).brightness r c ∧ (fadePass st).brightness r c ≤ 10) ∧
      (0 ≤ (tick st).brightness r c ∧ (tick st).brightness r c ≤ 10) := by
  intro r c
  have hg := reachable_gridOk h
  obtain ⟨f0, f10, _, _⟩ := fadePass_gridOk hg r c
  obtain ⟨t0, t10, _, _⟩ := tick_gridOk hg r c
  exact ⟨⟨f0, f10⟩, t0, t10⟩

theorem brightness_within_range_witness :
    (0 ≤ (fadePass (run 3 5 rng0 0)).brightness 0 0 ∧
      (fadePass (run 3 5 rng0 0)).brightness 0 0 ≤ 10) ∧
    (0 ≤ (tick (run 3 5 rng0 0)).brightness 0 0 ∧
      (tick (run 3 5 rng0 0)).brightness 0 0 ≤ 10) :=
  brightness_within_range (run 3 5 rng0 0) ⟨3, 5, rng0, 0, rfl⟩ 0 0

/-- C2: a column with speed s and a freshly reset counter advances exactly on
the s-th of the next s ticks and never before; each resting tick keeps the
counter strictly below s, an advancing tick resets it to 0, and the head row
does not move on resting ticks and moves down exactly one row on the
advancing tick (when no respawn triggers). -/
theorem speed_advance_period (st : MState) (col : Nat) (s : Int)
    (hcol : col < st.width) (h0 : st.counters col = 0) (hs : st.speeds col = s)
    (hs1 : 1 ≤ s) :
    (∀ k : Nat, k < s.toNat →
      (tick^[k] st).counters col = (k : Int) ∧ (tick^[k] st).speeds col = s) ∧
    (∀ k : Nat, k < s.toNat → (advancesNow (tick^[k] st) col ↔ k = s.toNat - 1)) ∧
    (∀ k : Nat, k + 1 < s.toNat → (tick^[k + 1] st).drops col = (tick^[k] st).drops col) ∧
    (tick^[s.toNat] st).counters col = 0 ∧
    (¬ ((st.height : Int) < st.drops col + 1 - st.lengths col) →
      (tick^[s.toNat] st).drops col = st.drops col + 1) := by
  have hpre := tick_iter_pre st col s hcol h0 hs
  refine ⟨fun k hk => ⟨(hpre k hk).1, (hpre k hk).2.1⟩, fun k hk => ?_, fun k hk => ?_, ?_, ?_⟩
  · obtain ⟨ic, is, _, _, _⟩ := hpre k hk
    show (tick^[k] st).speeds col ≤ (tick^[k] st).counters col + 1 ↔ k = s.toNat - 1
    rw [is, ic]
    omega
  · obtain ⟨_, _, id1, _, _⟩ := hpre k (by omega)
    obtain ⟨_, _, id2, _, _⟩ := hpre (k + 1) hk
    rw [id1, id2]
  · have hs0 : s.toNat = (s.toNat - 1) + 1 := by omega
    obtain ⟨ic, is, _, _, iw⟩ := hpre (s.toNat - 1) (by omega)
    have hadv : advancesNow (tick^[s.toNat - 1] st) col := by
      show _ ≤ _
      rw [is, ic]
      omega
    rw [hs0, Function.iterate_succ_apply']
    exact ((tick_col _ col (by rw [iw]; exact hcol)).2 hadv).1
  · intro hnr
    have hs0 : s.toNat = (s.toNat - 1) + 1 := by omega
    obtain ⟨ic, is, id, il, iw⟩ := hpre (s.toNat - 1) (by omega)
    have hadv : advancesNow (tick^[s.toNat - 1] st) col := by
      show _ ≤ _
      rw [is, ic]
      omega
    obtain ⟨_, hno, _⟩ := (tick_col _ col (by rw [iw]; exact hcol)).2 hadv
    have hcond : ¬ (((tick^[s.toNat - 1] st).height : Int)
        < (tick^[s.toNat - 1] st).drops col + 1 - (tick^[s.toNat - 1] st).lengths col) := by
      rw [iterate_height, id, il]
      exact hnr
    obtain ⟨hd, _, _⟩ := hno hcond
    rw [hs0, Function.iterate_succ_apply', hd, id]

theorem speed_advance_period_witness :
    (tick^[(2 : Int).toNat] stW).counters 0 = 0 :=
  (speed_advance_period stW 0 2 (by decide) rfl rfl (by decide)).2.2.2.1

/-- C3: when a tick advances a column whose advanced head row lies more than a
trail length past the bottom, the column respawns that same tick with a
strictly negative head row, a trail length in [7, 10] and a speed in
[1, 4]. -/
theorem respawn_in_range (st : MState) (col : Nat) (hcol : col < st.width)
    (hre : Reachable st) (hadv : advancesNow st col)
    (hoff : (st.height : Int) < st.drops col + 1 - st.lengths col) :
    (tick st).drops col < 0 ∧
    7 ≤ (tick st).lengths col ∧ (tick st).lengths col ≤ 10 ∧
    1 ≤ (tick st).speeds col ∧ (tick st).speeds col ≤ 4 := by
  have hc := reachable_colOk hre col hcol
  obtain ⟨_, _, hyes⟩ := (tick_col st col hcol).2 hadv
  obtain ⟨⟨sp, z1, z2, z3⟩, z4, z5, z6, z7⟩ := hyes hoff
  have hlen7 : 7 ≤ st.lengths col := hc.2.2.1
  refine ⟨?_, z6, z7, z4, z5⟩
  rw [z3]
  omega

theorem respawn_in_range_witness :
    (tick (run 1 1 rng0 15)).drops 0 < 0 ∧
    7 ≤ (tick (run 1 1 rng0 15)).lengths 0 ∧ (tick (run 1 1 rng0 15)).lengths 0 ≤ 10 ∧
    1 ≤ (tick (run 1 1 rng0 15)).speeds 0 ∧ (tick (run 1 1 rng0 15)).speeds 0 ≤ 4 :=
  respawn_in_range (run 1 1 rng0 15) 0 (by decide) ⟨1, 1, rng0, 15, rfl⟩ (by decide)
    (by decide)

/-- C4 counterexample: at the concrete respawning state stR the new head row
is -8 = -(spawn draw) - (current trail length 7), while the formula the claim
states — with a fresh trail-length draw consumed at respawn time — yields
-9; the two differ. -/
theorem respawn_formula_counterexample :
    (tick stR).drops 0 = -8 ∧ respawnHeadRowSpec stR.rng = -9 ∧
    (tick stR).drops 0 ≠ respawnHeadRowSpec stR.rng :=
  ⟨by decide, by decide, by decide⟩

/-- C4 amended: when a column respawns, its new head row is -(fresh spawn
draw in [0, 50]) minus the column's current (pre-respawn) trail length; the
stored trail length is then redrawn from [7, 10] but is not the length used
in the head-row formula. -/
theorem respawn_uses_current_trail (st : MState) (col : Nat) (hcol : col < st.width)
    (hadv : advancesNow st col)
    (hoff : (st.height : Int) < st.drops col + 1 - st.lengths col) :
    (∃ sp : Int, 0 ≤ sp ∧ sp ≤ 50 ∧ (tick st).drops col = -sp - st.lengths col) ∧
    7 ≤ (tick st).lengths col ∧ (tick st).lengths col ≤ 10 := by
  obtain ⟨_, _, hyes⟩ := (tick_col st col hcol).2 hadv
  obtain ⟨he, _, _, z6, z7⟩ := hyes hoff
  exact ⟨he, z6, z7⟩

theorem respawn_uses_current_trail_witness :
    (∃ sp : Int, 0 ≤ sp ∧ sp ≤ 50 ∧ (tick stR).drops 0 = -sp - stR.lengths 0) ∧
    7 ≤ (tick stR).lengths 0 ∧ (tick stR).lengths 0 ≤ 10 :=
  respawn_uses_current_trail stR 0 (by decide) (by decide) (by decide)

end ClaimTheorems

section ClaimTheoremsTwo

/-- C5: during a column's advance, the in-window tail cell at offset i is
rewritten with a fresh glyph and brightness max 1 (10 - i) exactly when its
current brightness is below 10 - i, is untouched otherwise, and no cell of
the grid is dimmed by the column pass. -/
theorem tail_write_rule (st : MState) (col : Nat) (i : Nat)
    (hadv : advancesNow st col) (hi1 : 1 ≤ i) (hil : (i : Int) < st.lengths col)
    (htr0 : 0 ≤ st.drops col + 1 - (i : Int))
    (htrh : st.drops col + 1 - (i : Int) < (st.height : Int))
    (hb : ∀ r c, st.brightness r c ≤ 10) :
    (st.brightness (st.drops col + 1 - (i : Int)).toNat col < 10 - (i : Int) →
      (updateColumn col st).brightness (st.drops col + 1 - (i : Int)).toNat col
        = max 1 (10 - (i : Int)) ∧
      (updateColumn col st).screen (st.drops col + 1 - (i : Int)).toNat col
        ∈ matrixCharsBytes) ∧
    (¬ st.brightness (st.drops col + 1 - (i : Int)).toNat col < 10 - (i : Int) →
      (updateColumn col st).brightness (st.drops col + 1 - (i : Int)).toNat col
        = st.brightness (st.drops col + 1 - (i : Int)).toNat col ∧
      (updateColumn col st).screen (st.drops col + 1 - (i : Int)).toNat col
        = st.screen (st.drops col + 1 - (i : Int)).toNat col) ∧
    (∀ r c, st.brightness r c ≤ (updateColumn col st).brightness r c) := by
  have hadv2 : st.speeds col ≤ st.counters col + 1 := hadv
  have hne : (st.drops col + 1 - (i : Int)).toNat ≠ (st.drops col + 1).toNat := by omega
  have hfs : (headWrite col (st.drops col + 1)
      { st with counters := updF st.counters col 0,
                drops := updF st.drops col (st.drops col + 1) }).screen
        (st.drops col + 1 - (i : Int)).toNat col
      = st.screen (st.drops col + 1 - (i : Int)).toNat col :=
    (headWrite_cell_frame col (st.drops col + 1) _ (Or.inl hne)).1
  have hfb : (headWrite col (st.drops col + 1)
      { st with counters := updF st.counters col 0,
                drops := updF st.drops col (st.drops col + 1) }).brightness
        (st.drops col + 1 - (i : Int)).toNat col
      = st.brightness (st.drops col + 1 - (i : Int)).toNat col :=
    (headWrite_cell_frame col (st.drops col + 1) _ (Or.inl hne)).2
  have hh2 : (headWrite col (st.drops col + 1)
      { st with counters := updF st.counters col 0,
                drops := updF st.drops col (st.drops col + 1) }).height = st.height :=
    (headWrite_misc col (st.drops col + 1) _).2.1
  obtain ⟨hw1, hw2⟩ := tailWrites_at col (st.drops col + 1) (st.lengths col)
    (headWrite col (st.drops col + 1)
      { st with counters := updF st.counters col 0,
                drops := updF st.drops col (st.drops col + 1) })
    i hi1 hil htr0 (by rw [hh2]; exact htrh)
  rw [hfb] at hw1 hw2
  rw [hfs] at hw2
  refine ⟨?_, ?_, updateColumn_mono col st hb⟩
  · intro hdim
    obtain ⟨e1, e2⟩ := hw1 hdim
    unfold updateColumn
    rw [if_pos hadv2]
    constructor
    · rw [(resetCheck_misc col _).2.2.2.2]
      exact e1
    · rw [(resetCheck_misc col _).2.2.2.1]
      exact e2
  · intro hdim
    obtain ⟨e1, e2⟩ := hw2 hdim
    unfold updateColumn
    rw [if_pos hadv2]
    constructor
    · rw [(resetCheck_misc col _).2.2.2.2]
      exact e1
    · rw [(resetCheck_misc col _).2.2.2.1]
      exact e2

theorem tail_write_rule_witness :
    stH.brightness 1 0 ≤ (updateColumn 0 stH).brightness 1 0 :=
  (tail_write_rule stH 0 1 (by decide) (by decide) (by decide) (by decide) (by decide)
    (fun _ _ => show (0 : Int) ≤ 10 by decide)).2.2 1 0

set_option maxRecDepth 7999

theorem head_glyph_cex_screen : (tick stH).screen 2 0 = 227 := by decide

theorem head_glyph_cex_brightness : (tick stH).brightness 2 0 = 10 := by decide

theorem head_glyph_cex_alphabet : ∀ c ∈ matrixChars.data, c.toNat ≠ 227 := by decide

/-- C6 counterexample: on an advancing tick into the window, the stored glyph
is the byte 227 (the first byte of the three-byte UTF-8 encoding of the
katakana at index 0), which is not a character of the symbol alphabet: no
character of matrix_chars has code point 227. -/
theorem head_glyph_counterexample :
    (tick stH).screen 2 0 = 227 ∧ (tick stH).brightness 2 0 = 10 ∧
    (∀ c ∈ matrixChars.data, c.toNat ≠ 227) :=
  ⟨head_glyph_cex_screen, head_glyph_cex_brightness, head_glyph_cex_alphabet⟩

/-- C6 amended: on an advancing tick whose new head row lies within
[0, height), the head cell receives brightness 10 and one uniformly drawn
byte of the UTF-8 encoding of the symbol string (not a whole character: the
katakana encode as three bytes each). -/
theorem head_write_uniform_byte (st : MState) (col : Nat)
    (hadv : advancesNow st col) (h0 : 0 ≤ st.drops col + 1)
    (hh : st.drops col + 1 < (st.height : Int)) :
    (updateColumn col st).brightness (st.drops col + 1).toNat col = 10 ∧
    (updateColumn col st).screen (st.drops col + 1).toNat col ∈ matrixCharsBytes := by
  have hadv2 : st.speeds col ≤ st.counters col + 1 := hadv
  unfold updateColumn
  rw [if_pos hadv2]
  obtain ⟨k1, k2⟩ := tail_reset_keep_head col (st.drops col + 1) (st.lengths col)
    (headWrite col (st.drops col + 1)
      { st with counters := updF st.counters col 0,
                drops := updF st.drops col (st.drops col + 1) }) h0
  rw [k1, k2]
  have hc : 0 ≤ st.drops col + 1 ∧ st.drops col + 1
      < (({ st with counters := updF st.counters col 0,
                    drops := updF st.drops col (st.drops col + 1) } : MState).height : Int) :=
    ⟨h0, hh⟩
  unfold headWrite
  rw [if_pos hc]
  constructor
  · exact upd2_self _ _ _ _
  · show upd2 _ _ col _ _ col ∈ matrixCharsBytes
    rw [upd2_self]
    exact fresh_glyph_mem _

theorem head_write_uniform_byte_witness :
    (updateColumn 0 stH).brightness (stH.drops 0 + 1).toNat 0 = 10 ∧
    (updateColumn 0 stH).screen (stH.drops 0 + 1).toNat 0 ∈ matrixCharsBytes :=
  head_write_uniform_byte stH 0 (by decide) (by decide) (by decide)

/-- C7: with the same random stream, the same dimensions and the same number
of ticks, the brightness grid is identical — the simulation is a pure
function of its random source and tick count. -/
theorem run_deterministic (w h n : Nat) (s1 s2 : Nat → Nat) (hs : s1 = s2) :
    ∀ r c, (run w h { stream := s1, pos := 0 } n).brightness r c
      = (run w h { stream := s2, pos := 0 } n).brightness r c := by
  subst hs
  intro r c
  rfl

theorem run_deterministic_witness :
    (run 3 5 { stream := fun _ => 0, pos := 0 } 20).brightness 0 0
      = (run 3 5 { stream := fun _ => 0, pos := 0 } 20).brightness 0 0 :=
  run_deterministic 3 5 20 (fun _ => 0) (fun _ => 0) rfl 0 0

/-- C8: painting a fully blank grid emits exactly the frame of space
characters with a row separator between consecutive rows and none after the
last row; every emitted token is a space or a separator, so no color-control
sequences appear, and the separator count is height - 1. Moreover, in every
frame — blank or not — no row's cell output contains a separator, the
separator count is height - 1, and the frame is the rows in order with one
separator after every row except the last. -/
theorem blank_frame_render (st : MState) (hb : ∀ r c, st.brightness r c = 0) :
    render st = blankFrame st.height st.width ∧
    (∀ o ∈ render st, o = Out.space ∨ o = Out.newline) ∧
    (render st).count Out.newline = st.height - 1 ∧
    (∀ t : MState,
      (∀ r, Out.newline ∉ rowOut t r) ∧
      (render t).count Out.newline = t.height - 1 ∧
      (1 ≤ t.height →
        render t = (List.range (t.height - 1)).flatMap
            (fun r => rowOut t r ++ [Out.newline]) ++ rowOut t (t.height - 1))) := by
  have he := render_blank hb
  refine ⟨he, fun o ho => blankFrame_mem (he ▸ ho), by rw [he, blankFrame_count],
    fun t => ⟨newline_not_mem_rowOut t, render_count_newline t, render_split t⟩⟩

theorem blank_frame_render_witness :
    render stBlank = blankFrame stBlank.height stBlank.width :=
  (blank_frame_render stBlank (fun _ _ => rfl)).1

/-- C9: the modelled main exits with code 0 for every environment — also
when the terminal-size query fails — because the return value of the ioctl
query is never inspected and no modelled operation throws; the claimed
caught-error, diagnostic and exit code 1 never happen for this failure. -/
theorem main_exit_ignores_terminal_failure :
    envNoTty.querySucceeds = false ∧ mainExit envNoTty = 0 ∧
    (∀ e : TermEnv, mainExit e = 0) :=
  ⟨rfl, rfl, fun _ => rfl⟩

/-- C10: in every reachable state, a cell's glyph is the blank space byte
exactly when its brightness is 0, and every non-blank glyph is a byte of the
symbol string with brightness at least 1. -/
theorem blank_glyph_iff_zero (st : MState) (h : Reachable st) :
    ∀ r c, (st.screen r c = 32 ↔ st.brightness r c = 0) ∧
      (st.screen r c ≠ 32 → st.screen r c ∈ matrixCharsBytes ∧ 1 ≤ st.brightness r c) := by
  intro r c
  obtain ⟨h0, h10, hiff, hmem⟩ := reachable_gridOk h r c
  refine ⟨hiff, fun hg => ⟨hmem hg, ?_⟩⟩
  have hb : st.brightness r c ≠ 0 := fun hbb => hg (hiff.mpr hbb)
  omega

theorem blank_glyph_iff_zero_witness :
    ((run 2 3 rng0 1).screen 0 0 = 32 ↔ (run 2 3 rng0 1).brightness 0 0 = 0) ∧
    ((run 2 3 rng0 1).screen 0 0 ≠ 32 →
      (run 2 3 rng0 1).screen 0 0 ∈ matrixCharsBytes ∧ 1 ≤ (run 2 3 rng0 1).brightness 0 0) :=
  blank_glyph_iff_zero (run 2 3 rng0 1) ⟨2, 3, rng0, 1, rfl⟩ 0 0

end ClaimTheoremsTwo
